import Mathlib

/-!
# DynamicArray (programs/dynamic_array_allocator/dynamic_array_allocator.cpp)

A shallow embedding of the `DynamicArray<T>` class template.

* The heap buffer behind `T *data` is the list of its slots.  A slot is an
  `Option T`: `none` is a slot that has never been assigned (what `new T[n]`
  leaves behind), `some v` is a slot holding `v`.  The length of the list is
  the number of slots that were allocated.
* `int` is a 32-bit signed integer, carried as an `Int`.  Signed overflow is
  undefined behaviour and is reported as `Fault.intOverflow`.
* Accessing a slot outside the allocated buffer is undefined behaviour and is
  reported as `Fault.outOfBounds`; `new T[n]` with a negative `n` is reported
  as `Fault.badArrayNewLength`.
* Copying a slot copies its content as it is: the copy of an unassigned slot
  is an unassigned slot.
* `new T[n]` with `n ≥ 0` always returns a buffer: running out of memory is
  not part of the model.
* `copies` is a ghost counter: the number of iterations of the copy loop of
  `resize` that have been executed on this object so far.
-/

namespace DynArr

/-- Ways in which an operation can fail to produce a result. -/
inductive Fault where
  | outOfBounds
  | intOverflow
  | badArrayNewLength
  deriving DecidableEq

instance instDecidableEqExcept {ε α : Type} [DecidableEq ε] [DecidableEq α] :
    DecidableEq (Except ε α)
  | .ok a, .ok b => if h : a = b then isTrue (by rw [h]) else isFalse (fun h' => h (Except.ok.inj h'))
  | .error a, .error b =>
    if h : a = b then isTrue (by rw [h]) else isFalse (fun h' => h (Except.error.inj h'))
  | .ok _, .error _ => isFalse (fun h => Except.noConfusion h)
  | .error _, .ok _ => isFalse (fun h => Except.noConfusion h)

/-- Largest value of a C++ `int`. -/
def INT_MAX : Int := 2147483647

/-- Smallest value of a C++ `int`. -/
def INT_MIN : Int := -2147483648

/-- The result of an `int` computation: the value when it is representable. -/
def checkInt (x : Int) : Except Fault Int :=
  if INT_MIN ≤ x ∧ x ≤ INT_MAX then .ok x else .error .intOverflow

/-- The expression `new T[n]`: a fresh buffer of `n` unassigned slots. -/
def newArray (T : Type) (n : Int) : Except Fault (List (Option T)) :=
  if n < 0 then .error .badArrayNewLength else .ok (List.replicate n.toNat none)

/-- The object state: the fields `data`, `size`, `capacity` of the class, and
the ghost counter `copies`. -/
structure DynamicArray (T : Type) where
  data : List (Option T)
  size : Int
  capacity : Int
  copies : Nat
  deriving DecidableEq

/-- The constructor `DynamicArray(int initialSize)`: the member initialisers
set `size` and `capacity` to `initialSize`, the body allocates the buffer. -/
def DynamicArray.construct (T : Type) (initialSize : Int) : Except Fault (DynamicArray T) :=
  match newArray T initialSize with
  | .error e => .error e
  | .ok data => .ok ⟨data, initialSize, initialSize, 0⟩

/-- The constructor called without an argument: `initialSize = 10`. -/
def DynamicArray.constructDefault (T : Type) : Except Fault (DynamicArray T) :=
  DynamicArray.construct T 10

/-- The member function `getSize`. -/
def DynamicArray.getSize {T : Type} (a : DynamicArray T) : Int := a.size

/-- Reading through `operator[]`: `data[index]`, with no comparison against
`size`.  The result is the slot's content. -/
def DynamicArray.operator_index {T : Type} (a : DynamicArray T) (index : Int) : Except Fault (Option T) :=
  if 0 ≤ index then
    match a.data[index.toNat]? with
    | some slot => .ok slot
    | none => .error .outOfBounds
  else .error .outOfBounds

/-- Assigning through `operator[]`: `a[index] = value`. -/
def DynamicArray.operator_index_assign {T : Type} (a : DynamicArray T) (index : Int) (value : T) :
    Except Fault (DynamicArray T) :=
  if 0 ≤ index ∧ index.toNat < a.data.length then
    .ok ⟨a.data.set index.toNat (some value), a.size, a.capacity, a.copies⟩
  else .error .outOfBounds

/-- The loop `for (int i = 0; i < size; i++) newData[i] = data[i];` of `resize`.
The first argument is the number of iterations still to run (`size - i`), the
second is `i`; the result is the new buffer and the ghost counter. -/
def copyLoop {T : Type} (data : List (Option T)) :
    Nat → Nat → List (Option T) → Nat → Except Fault (List (Option T) × Nat)
  | 0, _, newData, copies => .ok (newData, copies)
  | k + 1, i, newData, copies =>
    match data[i]? with
    | none => .error .outOfBounds
    | some slot =>
      if i < newData.length then
        copyLoop data k (i + 1) (newData.set i slot) (copies + 1)
      else .error .outOfBounds

/-- The private member function `resize`. -/
def DynamicArray.resize {T : Type} (a : DynamicArray T) (newCapacity : Int) : Except Fault (DynamicArray T) :=
  match newArray T newCapacity with
  | .error e => .error e
  | .ok newData =>
    match copyLoop a.data a.size.toNat 0 newData a.copies with
    | .error e => .error e
    | .ok (newData, copies) => .ok ⟨newData, a.size, newCapacity, copies⟩

/-- The first statement of `push_back`:
`if (size == capacity) { resize(capacity * 2); }`. -/
def DynamicArray.grow {T : Type} (a : DynamicArray T) : Except Fault (DynamicArray T) :=
  if a.size = a.capacity then
    match checkInt (a.capacity * 2) with
    | .error e => .error e
    | .ok newCapacity => a.resize newCapacity
  else .ok a

/-- The second statement of `push_back`: `data[size++] = value;`. -/
def DynamicArray.store {T : Type} (a : DynamicArray T) (value : T) : Except Fault (DynamicArray T) :=
  if 0 ≤ a.size ∧ a.size.toNat < a.data.length then
    match checkInt (a.size + 1) with
    | .error e => .error e
    | .ok size' => .ok ⟨a.data.set a.size.toNat (some value), size', a.capacity, a.copies⟩
  else .error .outOfBounds

/-- The member function `push_back`. -/
def DynamicArray.push_back {T : Type} (a : DynamicArray T) (value : T) : Except Fault (DynamicArray T) :=
  match a.grow with
  | .error e => .error e
  | .ok a' => a'.store value

/-- A run of `push_back` calls, one per value, in order. -/
def pushAll {T : Type} : DynamicArray T → List T → Except Fault (DynamicArray T)
  | a, [] => .ok a
  | a, v :: vs =>
    match a.push_back v with
    | .error e => .error e
    | .ok a' => pushAll a' vs

/-- The representation invariant of a live object: the buffer has `capacity`
slots, `0 ≤ size ≤ capacity`, and `capacity` is an `int`. -/
def WF {T : Type} (a : DynamicArray T) : Prop :=
  (a.data.length : Int) = a.capacity ∧ 0 ≤ a.size ∧ a.size ≤ a.capacity ∧ a.capacity ≤ INT_MAX

instance instDecidableWF {T : Type} (a : DynamicArray T) : Decidable (WF a) :=
  inferInstanceAs (Decidable
    ((a.data.length : Int) = a.capacity ∧ 0 ≤ a.size ∧ a.size ≤ a.capacity ∧ a.capacity ≤ INT_MAX))

/-- The loop of `main` that fills the array: `push_back(i * 5)` for `i < 20`. -/
def mainValues : List Int := (List.range 20).map (fun i => (i : Int) * 5)

/-- Bound `2^30` on the final size of a run of `push_back` calls: below it,
every `capacity * 2` computed on the way is an `int`. -/
def maxDoubling : Int := 1073741824

/-- An object reached by `DynamicArray<int>(3)` and `push_back(7)`. -/
def sampleGrown : DynamicArray Int := ⟨[none, none, none, some 7, none, none], 4, 6, 3⟩

/-- An object reached by `DynamicArray<int>(1)` and `push_back(9)`: it is full. -/
def sampleFull : DynamicArray Int := ⟨[none, some 9], 2, 2, 1⟩

/-! ## The copy loop and `resize` -/

theorem copyLoop_ok {T : Type} (data : List (Option T)) :
    ∀ (k i : Nat) (newData : List (Option T)) (copies : Nat),
      i + k ≤ data.length → i + k ≤ newData.length →
      ∃ nd, copyLoop data k i newData copies = .ok (nd, copies + k) ∧
        nd.length = newData.length ∧
        ∀ j, nd[j]? = if i ≤ j ∧ j < i + k then data[j]? else newData[j]? := by
  intro k
  induction k with
  | zero =>
    intro i newData copies _ _
    refine ⟨newData, rfl, rfl, ?_⟩
    intro j
    have hno : ¬ (i ≤ j ∧ j < i + 0) := by omega
    rw [if_neg hno]
  | succ k ih =>
    intro i newData copies h1 h2
    have hi : i < data.length := by omega
    have hget : data[i]? = some data[i] := List.getElem?_eq_getElem hi
    have hlt : i < newData.length := by omega
    obtain ⟨nd, hnd, hlen, hslots⟩ :=
      ih (i + 1) (newData.set i data[i]) (copies + 1) (by omega) (by simp; omega)
    refine ⟨nd, ?_, ?_, ?_⟩
    · rw [copyLoop, hget]
      simp only [hlt, if_true]
      rw [hnd, Nat.add_assoc, Nat.add_comm 1 k]
    · simpa using hlen
    · intro j
      rw [hslots j]
      by_cases hj : j = i
      · subst hj
        have h3 : ¬ (j + 1 ≤ j ∧ j < j + 1 + k) := by omega
        have h4 : j ≤ j ∧ j < j + (k + 1) := by omega
        simp [h3, h4, hlt, hget]
      · by_cases hr : i + 1 ≤ j ∧ j < i + 1 + k
        · have h4 : i ≤ j ∧ j < i + (k + 1) := by omega
          simp [hr, h4]
        · have h4 : ¬ (i ≤ j ∧ j < i + (k + 1)) := by omega
          have h5 : i ≠ j := fun h => hj h.symm
          simp [hr, h4, List.getElem?_set_ne h5]

theorem checkInt_ok {x : Int} (h1 : INT_MIN ≤ x) (h2 : x ≤ INT_MAX) : checkInt x = .ok x := by
  simp [checkInt, h1, h2]

theorem newArray_ok {T : Type} {n : Int} (h : 0 ≤ n) :
    newArray T n = .ok (List.replicate n.toNat none) := by
  have h' : ¬ n < 0 := by omega
  simp [newArray, h']

theorem resize_ok {T : Type} (a : DynamicArray T) (newCapacity : Int)
    (h0 : 0 ≤ a.size) (h1 : a.size.toNat ≤ a.data.length) (h2 : a.size ≤ newCapacity) :
    ∃ nd, a.resize newCapacity = .ok ⟨nd, a.size, newCapacity, a.copies + a.size.toNat⟩ ∧
      nd.length = newCapacity.toNat ∧
      ∀ j, j < a.size.toNat → nd[j]? = a.data[j]? := by
  obtain ⟨nd, hnd, hlen, hslots⟩ :=
    copyLoop_ok a.data a.size.toNat 0 (List.replicate newCapacity.toNat none) a.copies
      (by omega) (by simp; omega)
  refine ⟨nd, ?_, ?_, ?_⟩
  · rw [DynamicArray.resize, newArray_ok (by omega)]
    simp only [hnd]
  · simpa using hlen
  · intro j hj
    rw [hslots j]
    have h3 : 0 ≤ j ∧ j < 0 + a.size.toNat := by omega
    rw [if_pos h3]

theorem grow_ok {T : Type} (a : DynamicArray T) (hwf : WF a)
    (hroom : a.size = a.capacity → 1 ≤ a.capacity ∧ a.capacity * 2 ≤ INT_MAX) :
    ∃ a1, a.grow = .ok a1 ∧ WF a1 ∧ a1.size = a.size ∧ a1.size < a1.capacity ∧
      a1.capacity = (if a.size = a.capacity then a.capacity * 2 else a.capacity) ∧
      a1.copies = a.copies + (if a.size = a.capacity then a.size.toNat else 0) ∧
      ∀ j, j < a.size.toNat → a1.data[j]? = a.data[j]? := by
  obtain ⟨hlen, hs0, hsc, hmax⟩ := hwf
  by_cases hfull : a.size = a.capacity
  · obtain ⟨hc1, hc2⟩ := hroom hfull
    obtain ⟨nd, hnd, hndlen, hslots⟩ :=
      resize_ok a (a.capacity * 2) hs0 (by omega) (by omega)
    refine ⟨⟨nd, a.size, a.capacity * 2, a.copies + a.size.toNat⟩, ?_, ?_, rfl, ?_, ?_, ?_, hslots⟩
    · rw [DynamicArray.grow, if_pos hfull, checkInt_ok (by unfold INT_MIN; omega) hc2]
      exact hnd
    · refine ⟨?_, hs0, ?_, hc2⟩
      · show (nd.length : Int) = a.capacity * 2
        rw [hndlen]; omega
      · show a.size ≤ a.capacity * 2
        omega
    · show a.size < a.capacity * 2
      omega
    · rw [if_pos hfull]
    · rw [if_pos hfull]
  · refine ⟨a, ?_, ⟨hlen, hs0, hsc, hmax⟩, rfl, ?_, ?_, ?_, fun _ _ => rfl⟩
    · rw [DynamicArray.grow, if_neg hfull]
    · omega
    · rw [if_neg hfull]
    · rw [if_neg hfull]; rfl

theorem store_ok {T : Type} (a : DynamicArray T) (value : T) (hwf : WF a) (hroom : a.size < a.capacity) :
    a.store value = .ok ⟨a.data.set a.size.toNat (some value), a.size + 1, a.capacity, a.copies⟩ := by
  obtain ⟨hlen, hs0, _, hmax⟩ := hwf
  have hin : 0 ≤ a.size ∧ a.size.toNat < a.data.length := ⟨hs0, by omega⟩
  rw [DynamicArray.store, if_pos hin,
    checkInt_ok (by unfold INT_MIN; omega) (by omega)]

/-- One `push_back` on a well-formed object that either has a free slot or can
double a capacity of at least one slot. -/
theorem push_back_ok {T : Type} (a : DynamicArray T) (value : T) (hwf : WF a)
    (hroom : a.size = a.capacity → 1 ≤ a.capacity ∧ a.capacity * 2 ≤ INT_MAX) :
    ∃ a2, a.push_back value = .ok a2 ∧ WF a2 ∧ a2.size = a.size + 1 ∧
      a2.capacity = (if a.size = a.capacity then a.capacity * 2 else a.capacity) ∧
      a2.copies = a.copies + (if a.size = a.capacity then a.size.toNat else 0) ∧
      (∀ j, j < a.size.toNat → a2.data[j]? = a.data[j]?) ∧
      a2.data[a.size.toNat]? = some (some value) := by
  obtain ⟨a1, hgrow, hwf1, hsize1, hlt1, hcap1, hcopies1, hslots1⟩ := grow_ok a hwf hroom
  have hstore := store_ok a1 value hwf1 hlt1
  obtain ⟨hlen1, hs01, hsc1, hmax1⟩ := hwf1
  refine ⟨⟨a1.data.set a1.size.toNat (some value), a1.size + 1, a1.capacity, a1.copies⟩,
    ?_, ?_, ?_, hcap1, hcopies1, ?_, ?_⟩
  · rw [DynamicArray.push_back, hgrow]
    exact hstore
  · refine ⟨?_, ?_, ?_, hmax1⟩
    · show (((a1.data.set a1.size.toNat (some value)).length : Nat) : Int) = a1.capacity
      rw [List.length_set]; exact hlen1
    · show 0 ≤ a1.size + 1
      omega
    · show a1.size + 1 ≤ a1.capacity
      omega
  · show a1.size + 1 = a.size + 1
    rw [hsize1]
  · intro j hj
    show (a1.data.set a1.size.toNat (some value))[j]? = a.data[j]?
    have hne : a1.size.toNat ≠ j := by rw [hsize1]; omega
    rw [List.getElem?_set_ne hne]
    exact hslots1 j hj
  · show (a1.data.set a1.size.toNat (some value))[a.size.toNat]? = some (some value)
    rw [← hsize1]
    have hin : a1.size.toNat < a1.data.length := by omega
    simp [hin]

/-- A run of `push_back` calls on a well-formed object with at least one slot,
whose final size stays within `maxDoubling`. -/
theorem pushAll_ok {T : Type} : ∀ (vs : List T) (a : DynamicArray T), WF a → 1 ≤ a.capacity →
    a.size + vs.length ≤ maxDoubling →
    ∃ a', pushAll a vs = .ok a' ∧ WF a' ∧ a'.size = a.size + vs.length ∧
      (∀ j, j < a.size.toNat → a'.data[j]? = a.data[j]?) ∧
      (∀ i v, vs[i]? = some v → a'.data[a.size.toNat + i]? = some (some v)) ∧
      ((a'.copies : Int) + a.capacity = a.copies + a'.capacity) ∧
      (a'.capacity = a.capacity ∨ a'.capacity ≤ 2 * (a'.size - 1)) := by
  intro vs
  induction vs with
  | nil =>
    intro a hwf _ _
    refine ⟨a, rfl, hwf, by simp, fun _ _ => rfl, ?_, by omega, Or.inl rfl⟩
    intro i v hv
    simp at hv
  | cons w ws ih =>
    intro a hwf hcap hbound
    have hlen : ((w :: ws).length : Int) = (ws.length : Int) + 1 := by simp
    rw [hlen] at hbound
    have hwf0 := hwf
    obtain ⟨hl, hs0, hsc, hmax⟩ := hwf0
    have hroom : a.size = a.capacity → 1 ≤ a.capacity ∧ a.capacity * 2 ≤ INT_MAX := by
      intro hfull
      refine ⟨hcap, ?_⟩
      unfold maxDoubling at hbound
      unfold INT_MAX
      omega
    obtain ⟨a2, hpush, hwf2, hsize2, hcap2, hcopies2, hold2, hnew2⟩ :=
      push_back_ok a w hwf hroom
    have hcap2' : 1 ≤ a2.capacity := by
      rw [hcap2]; split_ifs <;> omega
    obtain ⟨a', hrun, hwf', hsize', hold', hnew', hcopies', hgrowth'⟩ :=
      ih a2 hwf2 hcap2' (by rw [hsize2]; omega)
    have hnat : a2.size.toNat = a.size.toNat + 1 := by rw [hsize2]; omega
    refine ⟨a', ?_, hwf', ?_, ?_, ?_, ?_, ?_⟩
    · rw [pushAll, hpush]
      exact hrun
    · rw [hsize', hsize2, hlen]; omega
    · intro j hj
      rw [hold' j (by omega)]
      exact hold2 j hj
    · intro i v hv
      cases i with
      | zero =>
        simp at hv
        subst hv
        rw [Nat.add_zero, hold' _ (by omega)]
        exact hnew2
      | succ i =>
        have hv' : ws[i]? = some v := by simpa using hv
        have := hnew' i v hv'
        rw [hnat] at this
        rw [← this]
        congr 1
        omega
    · rw [hcopies2, hcap2] at hcopies'
      by_cases hfull : a.size = a.capacity
      · rw [if_pos hfull, if_pos hfull] at hcopies'
        push_cast at hcopies'
        omega
      · rw [if_neg hfull, if_neg hfull] at hcopies'
        push_cast at hcopies'
        omega
    · rw [hcap2] at hgrowth'
      by_cases hfull : a.size = a.capacity
      · rw [if_pos hfull] at hgrowth'
        right
        omega
      · rw [if_neg hfull] at hgrowth'
        exact hgrowth'

theorem construct_ok {T : Type} (n : Int) (h : 0 ≤ n) :
    DynamicArray.construct T n = .ok ⟨List.replicate n.toNat none, n, n, 0⟩ := by
  rw [DynamicArray.construct, newArray_ok h]

theorem construct_WF {T : Type} (n : Int) (h0 : 0 ≤ n) (h1 : n ≤ INT_MAX) :
    WF (⟨List.replicate n.toNat none, n, n, 0⟩ : DynamicArray T) := by
  refine ⟨?_, h0, Int.le_refl n, h1⟩
  show (((List.replicate n.toNat (none : Option T)).length : Nat) : Int) = n
  rw [List.length_replicate]
  omega

theorem operator_index_of_slot {T : Type} (a : DynamicArray T) (i : Nat) (slot : Option T)
    (h : a.data[i]? = some slot) : a.operator_index (i : Int) = .ok slot := by
  have h0 : (0 : Int) ≤ (i : Int) := by omega
  rw [DynamicArray.operator_index, if_pos h0, Int.toNat_ofNat, h]

/-- The sample objects are states the class reaches. -/
theorem samples_reached :
    (∃ a0, DynamicArray.construct Int 3 = .ok a0 ∧ a0.push_back 7 = .ok sampleGrown) ∧
    (∃ a0, DynamicArray.construct Int 1 = .ok a0 ∧ a0.push_back 9 = .ok sampleFull) :=
  ⟨⟨⟨[none, none, none], 3, 3, 0⟩, by decide, by decide⟩, ⟨⟨[none], 1, 1, 0⟩, by decide, by decide⟩⟩

/-- An in-range assignment through `operator[]` keeps the representation
invariant. -/
theorem operator_index_assign_WF {T : Type} (a a2 : DynamicArray T) (i : Int) (v : T)
    (hwf : WF a) (h : a.operator_index_assign i v = .ok a2) : WF a2 := by
  unfold DynamicArray.operator_index_assign at h
  split_ifs at h
  injection h with h
  subst h
  obtain ⟨hlen, h0, h1, h2⟩ := hwf
  refine ⟨?_, h0, h1, h2⟩
  show (((a.data.set i.toNat (some v)).length : Nat) : Int) = a.capacity
  rw [List.length_set]
  exact hlen

/-! ## C1: construction -/

/-- C1, as stated, fails: the default constructor yields an object whose
`getSize()` is 10, so it is not an object of length 0 and capacity 10. -/
theorem construct_default_counterexample :
    ¬ ∃ a, DynamicArray.constructDefault Int = .ok a ∧ a.getSize = 0 ∧ a.capacity = 10 := by
  rintro ⟨a, h, hsize, _⟩
  rw [DynamicArray.constructDefault, construct_ok 10 (by decide)] at h
  injection h with h
  subst h
  revert hsize
  decide

/-- C1, amended: for every non-negative `initialSize` the constructor yields an
object with `getSize() = initialSize`, `capacity = initialSize` and a buffer of
`initialSize` unassigned slots; without an argument `getSize()` and the
capacity are both 10. -/
theorem construct_size_capacity (T : Type) (n : Int) (h : 0 ≤ n) :
    (∃ a, DynamicArray.construct T n = .ok a ∧ a.getSize = n ∧ a.capacity = n ∧
      a.data = List.replicate n.toNat none) ∧
    (∃ d, DynamicArray.constructDefault T = .ok d ∧ d.getSize = 10 ∧ d.capacity = 10) :=
  ⟨⟨_, construct_ok n h, rfl, rfl, rfl⟩, ⟨_, construct_ok 10 (by decide), rfl, rfl⟩⟩

/-- The amended C1 at `DynamicArray<int>(3)`. -/
theorem construct_size_capacity_witness :
    (0 : Int) ≤ 3 ∧
    ((∃ a, DynamicArray.construct Int 3 = .ok a ∧ a.getSize = 3 ∧ a.capacity = 3 ∧
      a.data = List.replicate (3 : Int).toNat none) ∧
    (∃ d, DynamicArray.constructDefault Int = .ok d ∧ d.getSize = 10 ∧ d.capacity = 10)) :=
  ⟨by decide, construct_size_capacity Int 3 (by decide)⟩

/-! ## C2: append, then read -/

/-- C2, as stated, fails: after the default constructor and the appends
0, 5, 10, 15 there is no state in which `getSize()` is 4 or in which index 0
reads back the first appended value. -/
theorem append_then_read_counterexample :
    ¬ ∃ a0 a, DynamicArray.constructDefault Int = .ok a0 ∧ pushAll a0 [0, 5, 10, 15] = .ok a ∧
      (a.getSize = 4 ∨ a.operator_index 0 = .ok (some 0)) := by
  rintro ⟨a0, a, h0, h1, h2⟩
  rw [DynamicArray.constructDefault, construct_ok 10 (by decide)] at h0
  injection h0 with h0
  subst h0
  have hrun : pushAll (⟨List.replicate (10 : Int).toNat none, 10, 10, 0⟩ : DynamicArray Int)
      [0, 5, 10, 15] = .ok ⟨List.replicate 10 none ++ [some 0, some 5, some 10, some 15] ++
        List.replicate 6 none, 14, 20, 10⟩ := by decide
  rw [hrun] at h1
  injection h1 with h1
  subst h1
  revert h2
  decide

/-- C2, amended: for every `initialSize = n ≥ 1` and every list of `N` values
with `n + N ≤ 2^30`, the `N` calls of `push_back` on the freshly constructed
object all return, `getSize()` is then `n + N`, and `operator[]` at index
`n + i` reads back the `i`-th appended value, for every `i < N`. -/
theorem append_then_read_offset {T : Type} (n : Int) (vs : List T) (hn : 1 ≤ n)
    (hb : n + vs.length ≤ maxDoubling) :
    ∃ a0 a, DynamicArray.construct T n = .ok a0 ∧ pushAll a0 vs = .ok a ∧
      a.getSize = n + vs.length ∧
      ∀ (i : Nat) (v : T), vs[i]? = some v → a.operator_index (n + i) = .ok (some v) := by
  have hmax : n ≤ INT_MAX := by unfold maxDoubling at hb; unfold INT_MAX; omega
  obtain ⟨a, hrun, _, hsize, _, hnew, _, _⟩ :=
    pushAll_ok vs ⟨List.replicate n.toNat none, n, n, 0⟩ (construct_WF n (by omega) hmax) hn hb
  refine ⟨_, a, construct_ok n (by omega), hrun, hsize, ?_⟩
  intro i v hv
  have hslot := hnew i v hv
  have hidx : n + (i : Int) = ((n.toNat + i : Nat) : Int) := by push_cast; omega
  rw [hidx]
  exact operator_index_of_slot a _ _ hslot

/-- The amended C2 at `DynamicArray<int>(2)` and the appends 0, 5, 10, 15. -/
theorem append_then_read_offset_witness :
    (1 : Int) ≤ 2 ∧ (2 : Int) + ([0, 5, 10, 15] : List Int).length ≤ maxDoubling ∧
    ∃ a0 a, DynamicArray.construct Int 2 = .ok a0 ∧ pushAll a0 [0, 5, 10, 15] = .ok a ∧
      a.getSize = 2 + ([0, 5, 10, 15] : List Int).length ∧
      ∀ (i : Nat) (v : Int), ([0, 5, 10, 15] : List Int)[i]? = some v →
        a.operator_index (2 + i) = .ok (some v) :=
  ⟨by decide, by decide, append_then_read_offset 2 [0, 5, 10, 15] (by decide) (by decide)⟩

/-! ## C3, C4: growth from a full buffer -/

/-- C3 at `DynamicArray<int>(0)` followed by `push_back(5)`: the object is full
(`size = capacity = 0`), the growth statement calls `resize(0 * 2)` and leaves
the capacity at 0, which is neither `max(1, 2 * 0)` nor at least the old length
plus one, and the element write that follows is outside the buffer. -/
theorem growth_from_zero_capacity :
    ∃ a0 a1, DynamicArray.construct Int 0 = .ok a0 ∧ a0.size = a0.capacity ∧ a0.capacity = 0 ∧
      a0.grow = .ok a1 ∧ a1.capacity = 0 ∧ a1.capacity ≠ max 1 (2 * a0.capacity) ∧
      ¬ (a0.size + 1 ≤ a1.capacity) ∧ a0.push_back 5 = .error .outOfBounds :=
  ⟨⟨[], 0, 0, 0⟩, ⟨[], 0, 0, 0⟩, by decide, by decide, by decide, by decide, by decide, by decide,
    by decide, by decide⟩

/-- C4 at `k = 0`: the object built by `DynamicArray<int>(0)` holds no element
and has `size = capacity = 0`; `push_back(w)` on it returns no object for any
`w`, so there is no state after it with `getSize() = 1` and `w` at index 0. -/
theorem no_data_loss_fails_at_zero :
    ∃ a0, DynamicArray.construct Int 0 = .ok a0 ∧ a0.data = [] ∧ a0.size = 0 ∧ a0.capacity = 0 ∧
      ∀ w : Int, a0.push_back w = .error .outOfBounds ∧
        ¬ ∃ a1, a0.push_back w = .ok a1 ∧ a1.getSize = 1 ∧ a1.operator_index 0 = .ok (some w) := by
  refine ⟨⟨[], 0, 0, 0⟩, by decide, rfl, rfl, rfl, ?_⟩
  intro w
  have hfault : (⟨[], 0, 0, 0⟩ : DynamicArray Int).push_back w = .error .outOfBounds := rfl
  refine ⟨hfault, ?_⟩
  rintro ⟨a1, h, _⟩
  rw [hfault] at h
  exact Except.noConfusion h

/-! ## C5: length after `push_back` -/

/-- C5, as stated, fails: on the object built by `DynamicArray<int>(1073741824)`
the call `push_back(0)` needs `capacity * 2 = 2^31`, which is not an `int`;
there is no state after the call, so `getSize()` has not grown by one. -/
theorem length_plus_one_counterexample :
    ¬ ∃ a0 a1, DynamicArray.construct Int 1073741824 = .ok a0 ∧ a0.push_back 0 = .ok a1 ∧
      a1.getSize = a0.getSize + 1 := by
  rintro ⟨a0, a1, h0, h1, _⟩
  rw [construct_ok 1073741824 (by decide)] at h0
  injection h0 with h0
  subst h0
  have hfault : (⟨List.replicate (1073741824 : Int).toNat none, 1073741824, 1073741824, 0⟩ :
      DynamicArray Int).push_back 0 = .error .intOverflow := rfl
  rw [hfault] at h1
  exact Except.noConfusion h1

/-- C5, amended: on every well-formed object that has a free slot, or is full
with a capacity of at least 1 whose double is an `int`, `push_back` returns and
`getSize()` afterwards is `getSize()` before plus exactly 1, with or without
growth.  No other public operation changes the length: an assignment through
`operator[]`, at any index and with any value, leaves `getSize()` unchanged
whenever it returns, and it does return at every index `0 ≤ i < capacity`,
below the length or not (reading through `operator[]` and `getSize` return no
new state). -/
theorem length_plus_one {T : Type} (a : DynamicArray T) (value : T) (hwf : WF a)
    (hroom : a.size = a.capacity → 1 ≤ a.capacity ∧ a.capacity * 2 ≤ INT_MAX) :
    (∃ a2, a.push_back value = .ok a2 ∧ a2.getSize = a.getSize + 1) ∧
    (∀ (i : Int) (w : T) (a3 : DynamicArray T),
      a.operator_index_assign i w = .ok a3 → a3.getSize = a.getSize) ∧
    (∀ (i : Int) (w : T), 0 ≤ i → i < a.capacity →
      ∃ a3, a.operator_index_assign i w = .ok a3 ∧ a3.getSize = a.getSize) := by
  refine ⟨?_, ?_, ?_⟩
  · obtain ⟨a2, hpush, _, hsize, _⟩ := push_back_ok a value hwf hroom
    exact ⟨a2, hpush, hsize⟩
  · intro i w a3 h
    unfold DynamicArray.operator_index_assign at h
    split_ifs at h
    injection h with h
    subst h
    rfl
  · intro i w hi0 hi1
    obtain ⟨hlen, _, _, _⟩ := hwf
    have hin : 0 ≤ i ∧ i.toNat < a.data.length := ⟨hi0, by omega⟩
    refine ⟨⟨a.data.set i.toNat (some w), a.size, a.capacity, a.copies⟩, ?_, rfl⟩
    rw [DynamicArray.operator_index_assign, if_pos hin]

/-- The amended C5 at a full object of capacity 2. -/
theorem length_plus_one_witness :
    WF sampleFull ∧
    (sampleFull.size = sampleFull.capacity →
      1 ≤ sampleFull.capacity ∧ sampleFull.capacity * 2 ≤ INT_MAX) ∧
    ((∃ a2, sampleFull.push_back 7 = .ok a2 ∧ a2.getSize = sampleFull.getSize + 1) ∧
      (∀ (i : Int) (w : Int) (a3 : DynamicArray Int),
        sampleFull.operator_index_assign i w = .ok a3 → a3.getSize = sampleFull.getSize) ∧
      (∀ (i : Int) (w : Int), 0 ≤ i → i < sampleFull.capacity →
        ∃ a3, sampleFull.operator_index_assign i w = .ok a3 ∧
          a3.getSize = sampleFull.getSize)) :=
  ⟨by decide, by decide,
    length_plus_one sampleFull 7 (by decide) (by decide)⟩

/-! ## C6: indexed access at and beyond the length -/

/-- C6, as stated, fails: after `DynamicArray<int>(3)` and `push_back(7)` the
length is 4 and the capacity 6; `operator[]` at index 4 (the length) and at
index 5 (the length plus one) does not fail, it returns the unassigned slot.
On the freshly constructed default object `operator[]` at index 0 returns the
unassigned slot as well. -/
theorem bounds_enforcement_counterexample :
    ∃ a0 a d, DynamicArray.construct Int 3 = .ok a0 ∧ a0.push_back 7 = .ok a ∧ a.getSize = 4 ∧
      (¬ ∃ e, a.operator_index a.getSize = .error e) ∧
      (¬ ∃ e, a.operator_index (a.getSize + 1) = .error e) ∧
      a.operator_index a.getSize = .ok none ∧ a.operator_index (a.getSize + 1) = .ok none ∧
      DynamicArray.constructDefault Int = .ok d ∧ (¬ ∃ e, d.operator_index 0 = .error e) ∧
      d.operator_index 0 = .ok none := by
  refine ⟨⟨[none, none, none], 3, 3, 0⟩, ⟨[none, none, none, some 7, none, none], 4, 6, 3⟩,
    ⟨List.replicate 10 none, 10, 10, 0⟩, by decide, by decide, by decide, ?_, ?_, by decide,
    by decide, by decide, ?_, by decide⟩
  · rintro ⟨e, he⟩
    revert he
    cases e <;> decide
  · rintro ⟨e, he⟩
    revert he
    cases e <;> decide
  · rintro ⟨e, he⟩
    revert he
    cases e <;> decide

/-- C6, amended: `operator[]` compares the index with nothing.  On every
well-formed object, for every index `i` with `0 ≤ i < capacity`, whatever the
length, the access returns the content of slot `i` of the buffer; this covers
`i = length` and `i = length + 1` whenever they are below the capacity. -/
theorem index_within_capacity {T : Type} (a : DynamicArray T) (i : Int) (hwf : WF a)
    (h0 : 0 ≤ i) (h1 : i < a.capacity) :
    ∃ slot, a.operator_index i = .ok slot ∧ a.data[i.toNat]? = some slot := by
  obtain ⟨hlen, _, _, _⟩ := hwf
  have hin : i.toNat < a.data.length := by omega
  refine ⟨a.data[i.toNat], ?_, List.getElem?_eq_getElem hin⟩
  rw [DynamicArray.operator_index, if_pos h0, List.getElem?_eq_getElem hin]

/-- The amended C6 at index 5 of an object of length 4 and capacity 6. -/
theorem index_within_capacity_witness :
    WF sampleGrown ∧ (0 : Int) ≤ 5 ∧ 5 < sampleGrown.capacity ∧
    ∃ slot, sampleGrown.operator_index 5 = .ok slot ∧ sampleGrown.data[(5 : Int).toNat]? = some slot :=
  ⟨by decide, by decide, by decide,
    index_within_capacity sampleGrown 5 (by decide) (by decide) (by decide)⟩

/-! ## C7: assignment through `operator[]` -/

/-- C7: on every well-formed object, for every index `i` with `0 ≤ i < size`
and every value `v`, the assignment `a[i] = v` returns, leaves `size` and
`capacity` unchanged, leaves what `operator[]` reads at every other index
unchanged, and a read of index `i` afterwards returns `v`. -/
theorem assign_frame_and_readback {T : Type} (a : DynamicArray T) (i : Int) (v : T) (hwf : WF a)
    (h0 : 0 ≤ i) (h1 : i < a.size) :
    ∃ a2, a.operator_index_assign i v = .ok a2 ∧ a2.getSize = a.getSize ∧
      a2.capacity = a.capacity ∧
      (∀ j : Int, j ≠ i → a2.operator_index j = a.operator_index j) ∧
      a2.operator_index i = .ok (some v) := by
  obtain ⟨hlen, _, hsc, _⟩ := hwf
  have hin : 0 ≤ i ∧ i.toNat < a.data.length := ⟨h0, by omega⟩
  refine ⟨⟨a.data.set i.toNat (some v), a.size, a.capacity, a.copies⟩, ?_, rfl, rfl, ?_, ?_⟩
  · rw [DynamicArray.operator_index_assign, if_pos hin]
  · intro j hj
    by_cases hj0 : 0 ≤ j
    · have hne : i.toNat ≠ j.toNat := by omega
      simp only [DynamicArray.operator_index, if_pos hj0, List.getElem?_set_ne hne]
    · simp only [DynamicArray.operator_index, if_neg hj0]
  · simp only [DynamicArray.operator_index, if_pos h0]
    rw [List.getElem?_set_eq_of_lt _ hin.2]

/-- C7 at the assignment `a[1] = 8` on an object of length 4. -/
theorem assign_frame_and_readback_witness :
    WF sampleGrown ∧ (0 : Int) ≤ 1 ∧ 1 < sampleGrown.size ∧
    ∃ a2, sampleGrown.operator_index_assign 1 8 = .ok a2 ∧ a2.getSize = sampleGrown.getSize ∧
      a2.capacity = sampleGrown.capacity ∧
      (∀ j : Int, j ≠ 1 → a2.operator_index j = sampleGrown.operator_index j) ∧
      a2.operator_index 1 = .ok (some 8) :=
  ⟨by decide, by decide, by decide,
    assign_frame_and_readback sampleGrown 1 8 (by decide) (by decide) (by decide)⟩

/-! ## C8: `size ≤ capacity` -/

/-- C8 at `DynamicArray<int>(0)` followed by `push_back(5)`: the growth
statement returns an object with `size = 0` and `capacity = 0`, so the
statement `data[size++] = value` that follows writes slot 0 of a buffer without
slots and its increment takes `size` to 1, above the capacity 0; the write is
outside the buffer and `push_back` returns no object. -/
theorem size_le_capacity_fails_at_zero :
    ∃ a0 a1, DynamicArray.construct Int 0 = .ok a0 ∧ a0.grow = .ok a1 ∧
      a1.size = 0 ∧ a1.capacity = 0 ∧ a1.data = [] ∧ ¬ (a1.size + 1 ≤ a1.capacity) ∧
      a1.store 5 = .error .outOfBounds ∧ a0.push_back 5 = .error .outOfBounds :=
  ⟨⟨[], 0, 0, 0⟩, ⟨[], 0, 0, 0⟩, by decide, by decide, by decide, by decide, by decide, by decide,
    by decide, by decide⟩

/-! ## C9: copies made by growth -/

/-- C9, as stated, fails: one `push_back` on the default-constructed object
runs the copy loop of `resize` ten times, more than `2 * 1`. -/
theorem copies_two_n_counterexample :
    ¬ ∃ a0 a, DynamicArray.constructDefault Int = .ok a0 ∧ pushAll a0 [0] = .ok a ∧
      a.copies ≤ 2 * ([0] : List Int).length := by
  rintro ⟨a0, a, h0, h1, h2⟩
  rw [DynamicArray.constructDefault, construct_ok 10 (by decide)] at h0
  injection h0 with h0
  subst h0
  have hrun : pushAll (⟨List.replicate (10 : Int).toNat none, 10, 10, 0⟩ : DynamicArray Int) [0] =
      .ok ⟨List.replicate 10 none ++ [some 0] ++ List.replicate 9 none, 11, 20, 10⟩ := by decide
  rw [hrun] at h1
  injection h1 with h1
  subst h1
  revert h2
  decide

/-- C9, amended: for every `initialSize = n ≥ 1` and every `N ≥ 1` with
`n + N ≤ 2^30`, the `N` calls of `push_back` on the freshly constructed object
all return, and the iterations of the copy loop of `resize`, summed over all
growth events, number `capacity - n`, which is at most `2N + n - 2`. -/
theorem copies_bound {T : Type} (n : Int) (vs : List T) (hn : 1 ≤ n) (hN : 1 ≤ vs.length)
    (hb : n + vs.length ≤ maxDoubling) :
    ∃ a0 a, DynamicArray.construct T n = .ok a0 ∧ pushAll a0 vs = .ok a ∧
      (a.copies : Int) + n = a.capacity ∧ (a.copies : Int) ≤ 2 * vs.length + n - 2 := by
  have hmax : n ≤ INT_MAX := by unfold maxDoubling at hb; unfold INT_MAX; omega
  obtain ⟨a, hrun, _, hsize, _, _, hcopies, hgrowth⟩ :=
    pushAll_ok vs ⟨List.replicate n.toNat none, n, n, 0⟩ (construct_WF n (by omega) hmax) hn hb
  have hcopies' : (a.copies : Int) + n = a.capacity := by
    have h : (a.copies : Int) + n = ((0 : Nat) : Int) + a.capacity := hcopies
    omega
  have hsize' : a.size = n + vs.length := hsize
  have hgrowth' : a.capacity = n ∨ a.capacity ≤ 2 * (a.size - 1) := hgrowth
  refine ⟨_, a, construct_ok n (by omega), hrun, hcopies', ?_⟩
  rcases hgrowth' with h | h <;> omega

/-- The amended C9 at `DynamicArray<int>(10)` and three appends. -/
theorem copies_bound_witness :
    (1 : Int) ≤ 10 ∧ 1 ≤ ([0, 5, 10] : List Int).length ∧
    (10 : Int) + ([0, 5, 10] : List Int).length ≤ maxDoubling ∧
    ∃ a0 a, DynamicArray.construct Int 10 = .ok a0 ∧ pushAll a0 [0, 5, 10] = .ok a ∧
      (a.copies : Int) + 10 = a.capacity ∧
      (a.copies : Int) ≤ 2 * ([0, 5, 10] : List Int).length + 10 - 2 :=
  ⟨by decide, by decide, by decide, copies_bound 10 [0, 5, 10] (by decide) (by decide) (by decide)⟩

/-! ## C10: where pushed values land -/

/-- C10, as stated, fails: on the object built by `DynamicArray<int>(1073741824)`
one `push_back` needs `capacity * 2 = 2^31`, which is not an `int`; the call
returns no object, so there is no state with `getSize() = n + 1`. -/
theorem placement_counterexample :
    ¬ ∃ a0 a, DynamicArray.construct Int 1073741824 = .ok a0 ∧ pushAll a0 [0] = .ok a ∧
      a.getSize = 1073741824 + ([0] : List Int).length := by
  rintro ⟨a0, a, h0, h1, _⟩
  rw [construct_ok 1073741824 (by decide)] at h0
  injection h0 with h0
  subst h0
  have hfault : pushAll (⟨List.replicate (1073741824 : Int).toNat none, 1073741824, 1073741824, 0⟩ :
      DynamicArray Int) [0] = .error .intOverflow := rfl
  rw [hfault] at h1
  exact Except.noConfusion h1

/-- C10, amended: for every `initialSize = n ≥ 1` and every list of `k` values
with `n + k ≤ 2^30`, the `k` calls of `push_back` on the freshly constructed
object all return, `getSize()` is then `n + k`, `operator[]` at index `n + j`
reads back the `j`-th pushed value, and the `j`-th call writes its value at
index `n + j`, which is at least 0 and strictly below the capacity (the number
of slots of the buffer) that is current after the growth statement of that
call. -/
theorem pushed_values_placement {T : Type} (n : Int) (vs : List T) (hn : 1 ≤ n)
    (hb : n + vs.length ≤ maxDoubling) :
    ∃ a0 a, DynamicArray.construct T n = .ok a0 ∧ pushAll a0 vs = .ok a ∧
      a.getSize = n + vs.length ∧
      (∀ (j : Nat) (v : T), vs[j]? = some v → a.operator_index (n + j) = .ok (some v)) ∧
      (∀ (j : Nat) (v : T), vs[j]? = some v →
        ∃ b b1 b2, pushAll a0 (vs.take j) = .ok b ∧ b.grow = .ok b1 ∧ b1.store v = .ok b2 ∧
          b.push_back v = .ok b2 ∧ b1.size = n + j ∧ 0 ≤ b1.size ∧ b1.size < b1.capacity ∧
          (b1.data.length : Int) = b1.capacity) := by
  have hmax : n ≤ INT_MAX := by unfold maxDoubling at hb; unfold INT_MAX; omega
  have hwf0 : WF (⟨List.replicate n.toNat none, n, n, 0⟩ : DynamicArray T) :=
    construct_WF n (by omega) hmax
  obtain ⟨a, hrun, _, hsize, _, hnew, _, _⟩ := pushAll_ok vs _ hwf0 hn hb
  refine ⟨_, a, construct_ok n (by omega), hrun, hsize, ?_, ?_⟩
  · intro j v hv
    have hidx : n + (j : Int) = ((n.toNat + j : Nat) : Int) := by push_cast; omega
    rw [hidx]
    exact operator_index_of_slot a _ _ (hnew j v hv)
  · intro j v hv
    have hj : j < vs.length := by
      by_contra hge
      rw [List.getElem?_eq_none (by omega)] at hv
      exact Option.noConfusion hv
    have htake : (vs.take j).length = j := by rw [List.length_take]; omega
    have hb_take : n + ((vs.take j).length : Int) ≤ maxDoubling := by rw [htake]; omega
    obtain ⟨b, hb_run, hb_wf, hb_size, _⟩ := pushAll_ok (vs.take j) _ hwf0 hn hb_take
    rw [htake] at hb_size
    have hb_size' : b.size = n + j := hb_size
    have hroom : b.size = b.capacity → 1 ≤ b.capacity ∧ b.capacity * 2 ≤ INT_MAX := by
      intro hfull
      unfold maxDoubling at hb
      unfold INT_MAX
      omega
    obtain ⟨b1, hgrow, hwf1, hsize1, hlt1, _⟩ := grow_ok b hb_wf hroom
    have hstore := store_ok b1 v hwf1 hlt1
    refine ⟨b, b1, _, hb_run, hgrow, hstore, ?_, ?_, hwf1.2.1, hlt1, hwf1.1⟩
    · rw [DynamicArray.push_back, hgrow]
      exact hstore
    · rw [hsize1, hb_size']

/-- The amended C10 at the default size 10 and the twenty values `main` pushes. -/
theorem pushed_values_placement_witness :
    (1 : Int) ≤ 10 ∧ (10 : Int) + mainValues.length ≤ maxDoubling ∧
    ∃ a0 a, DynamicArray.construct Int 10 = .ok a0 ∧ pushAll a0 mainValues = .ok a ∧
      a.getSize = 10 + mainValues.length ∧
      (∀ (j : Nat) (v : Int), mainValues[j]? = some v → a.operator_index (10 + j) = .ok (some v)) ∧
      (∀ (j : Nat) (v : Int), mainValues[j]? = some v →
        ∃ b b1 b2, pushAll a0 (mainValues.take j) = .ok b ∧ b.grow = .ok b1 ∧ b1.store v = .ok b2 ∧
          b.push_back v = .ok b2 ∧ b1.size = 10 + j ∧ 0 ≤ b1.size ∧ b1.size < b1.capacity ∧
          (b1.data.length : Int) = b1.capacity) :=
  ⟨by decide, by decide, pushed_values_placement 10 mainValues (by decide) (by decide)⟩

end DynArr
